import Mathlib

/-!
Verification of the PNG alpha flattener (tools/png_flatten.py).

The program is shallowly embedded: byte streams are lists of natural
numbers (each byte a value below 256), the stream cursor is the list of
bytes not yet consumed, fallible operations return Except or Option, and
the external zlib collaborators (crc32, decompress, compress) are passed
in as function parameters, following the design note that modelling them
as passed-in capabilities keeps the core transform logic checkable.
-/

/-- The 8-byte PNG signature. -/
def PNG_SIGNATURE : List Nat := [137, 80, 78, 71, 13, 10, 26, 10]

/-- Big-endian interpretation of a list of bytes, as used by
struct.unpack with format ">I" on 4-byte fields. -/
def beU32 (l : List Nat) : Nat := l.foldl (fun a b => a * 256 + b) 0

/-- Big-endian 4-byte encoding of a 32-bit value, as produced by
struct.pack with format ">I". -/
def u32be (n : Nat) : List Nat :=
  [n / 16777216 % 256, n / 65536 % 256, n / 256 % 256, n % 256]

/-- The Paeth predictor, from _paeth_predictor: p = a + b - c (over the
integers, since the intermediate may be negative), and the candidate with
the smallest absolute distance to p wins, testing a, then b, then c. -/
def _paeth_predictor (a b c : Nat) : Nat :=
  let p : Int := (a : Int) + (b : Int) - (c : Int)
  let pa := (p - (a : Int)).natAbs
  let pb := (p - (b : Int)).natAbs
  let pc := (p - (c : Int)).natAbs
  if pa ≤ pb ∧ pa ≤ pc then a
  else if pb ≤ pc then b
  else c

/-- Result of reading one chunk: either the end-of-chunks signal (the
EOFError raised by _read_chunk on a clean end of stream) or a chunk
together with the remaining stream suffix. -/
inductive ChunkResult where
  | eof : ChunkResult
  | chunk (ctype data rest : List Nat) : ChunkResult
deriving DecidableEq

/-- Embedding of _read_chunk.  The stream is the list of bytes not yet
consumed; stream.read(n) yields List.take n and advances by List.drop n.
An empty read of the length field is the end-of-chunks signal; any other
short read raises a format error. -/
def _read_chunk (s : List Nat) : Except String ChunkResult :=
  let length_bytes := s.take 4
  if length_bytes.length = 0 then .ok .eof
  else if length_bytes.length ≠ 4 then
    .error "Unexpected EOF while reading chunk length"
  else
    let len := beU32 length_bytes
    let s1 := s.drop 4
    let chunk_type := s1.take 4
    if chunk_type.length ≠ 4 then .error "Unexpected EOF while reading chunk type"
    else
      let s2 := s1.drop 4
      let data := s2.take len
      if data.length ≠ len then .error "Unexpected EOF while reading chunk data"
      else
        let s3 := s2.drop len
        let crc_bytes := s3.take 4
        if crc_bytes.length ≠ 4 then .error "Unexpected EOF while reading chunk CRC"
        else .ok (.chunk chunk_type data (s3.drop 4))

/-- Embedding of _write_chunk, parametrised by the external crc32
function.  struct.pack with format ">I" fails when the payload length does
not fit in 32 bits, hence the Option; the written bytes are the big-endian
length, the type tag, the payload, and the masked checksum over
type-then-payload. -/
def _write_chunk (crc32 : List Nat → Nat) (chunk_type data : List Nat) : Option (List Nat) :=
  if data.length < 4294967296 then
    some (u32be data.length ++ chunk_type ++ data ++ u32be (crc32 (chunk_type ++ data) % 4294967296))
  else none

/-- The pure byte image of a successful _write_chunk. -/
def chunkBytes (crc32 : List Nat → Nat) (chunk_type data : List Nat) : List Nat :=
  u32be data.length ++ chunk_type ++ data ++ u32be (crc32 (chunk_type ++ data) % 4294967296)

/-- Predictor value added to a filtered byte at position i of a row, for
filter type t.  acc is the already-reconstructed prefix of the current
row (the code mutates curr in place, so the left neighbour is read from
already-unfiltered bytes), prev is the fully reconstructed previous row.
Each branch mirrors the corresponding loop body of _unfilter_scanlines:
left is curr[i - bpp] when i >= bpp else 0, up is prev_row[i], up_left is
prev_row[i - bpp] when i >= bpp else 0. -/
def predAt (t bpp : Nat) (prev acc : List Nat) (i : Nat) : Nat :=
  let left := if bpp ≤ i then acc.getD (i - bpp) 0 else 0
  let up := prev.getD i 0
  let up_left := if bpp ≤ i then prev.getD (i - bpp) 0 else 0
  match t with
  | 1 => left
  | 2 => up
  | 3 => (left + up) / 2
  | 4 => _paeth_predictor left up up_left
  | _ => 0

/-- One pass of in-place unfiltering over a row: each output byte is
(filtered byte + predictor) mod 256, with the predictor reading the
already produced prefix. -/
def unfilterGo (t bpp : Nat) (prev : List Nat) (acc : List Nat) : List Nat → List Nat
  | [] => acc
  | f :: rest => unfilterGo t bpp prev (acc ++ [(f + predAt t bpp prev acc acc.length) % 256]) rest

/-- Unfilter a single scanline of filter type t, mirroring the per-type
dispatch of _unfilter_scanlines: type 0 copies the row unchanged, types
1 to 4 run the in-place reconstruction loop, anything else is the
"Unsupported PNG filter type" format error. -/
def unfilterRow (t bpp : Nat) (prev row : List Nat) : Except String (List Nat) :=
  if t = 0 then .ok row
  else if t ≤ 4 then .ok (unfilterGo t bpp prev [] row)
  else .error "Unsupported PNG filter type"

/-- The row loop of _unfilter_scanlines: each iteration consumes one
filter-type byte and row_size filtered bytes, reconstructs the row
against the previous reconstructed row, and appends it to the output. -/
def unfilterRows (bpp row_size : Nat) (prev raw : List Nat) : Nat → Except String (List Nat)
  | 0 => .ok []
  | h + 1 =>
    let t := raw.headD 0
    let rest := raw.drop 1
    let currF := rest.take row_size
    match unfilterRow t bpp prev currF with
    | .error e => .error e
    | .ok recon =>
      match unfilterRows bpp row_size recon (rest.drop row_size) h with
      | .error e => .error e
      | .ok tail => .ok (recon ++ tail)

/-- Embedding of _unfilter_scanlines: the decompressed buffer must hold at
least height * (1 + scanline_length) bytes (smaller is the size-mismatch
format error, larger is truncated), then the rows are reconstructed with a
zero-filled initial previous row. -/
def _unfilter_scanlines (raw : List Nat) (height scanline_length bytes_per_pixel : Nat) :
    Except String (List Nat) :=
  let expected := height * (1 + scanline_length)
  if raw.length < expected then
    .error "Decompressed IDAT size unexpected"
  else
    unfilterRows bytes_per_pixel scanline_length (List.replicate scanline_length 0)
      (raw.take expected) height

/-- The compositing formula of _flatten_rgba_over_white and of the
indexed-colour expander: channel times alpha plus white times inverse
alpha, with integer floor division by 255. -/
def compositeWhite (c a : Nat) : Nat := (c * a + 255 * (255 - a)) / 255

/-- The stride-4 loop of _flatten_rgba_over_white: every RGBA quadruple
becomes an RGB triple composited over white. -/
def flattenRGBAgo : List Nat → List Nat
  | r :: g :: b :: a :: rest =>
    compositeWhite r a :: compositeWhite g a :: compositeWhite b a :: flattenRGBAgo rest
  | _ => []

/-- Embedding of _flatten_rgba_over_white: the buffer length must be a
multiple of 4, then each pixel is composited over opaque white. -/
def _flatten_rgba_over_white (rgba : List Nat) : Except String (List Nat) :=
  if rgba.length % 4 ≠ 0 then .error "RGBA buffer length is not divisible by 4"
  else .ok (flattenRGBAgo rgba)

/-- Embedding of get_index_from_row: extract the packed palette index of
pixel x from a reconstructed row, for bit depths 8, 4, 2, 1 (byte >> s &
m is byte / 2 ^ s % (m + 1)); any other depth is a format error. -/
def get_index_from_row (bit_depth : Nat) (row : List Nat) (x : Nat) : Except String Nat :=
  if bit_depth = 8 then .ok (row.getD x 0)
  else if bit_depth = 4 then
    .ok (if x % 2 = 0 then row.getD (x / 2) 0 / 16 % 16 else row.getD (x / 2) 0 % 16)
  else if bit_depth = 2 then
    .ok (row.getD (x / 4) 0 / 2 ^ (6 - 2 * (x % 4)) % 4)
  else if bit_depth = 1 then
    .ok (row.getD (x / 8) 0 / 2 ^ (7 - x % 8) % 2)
  else .error "Unsupported bit depth for indexed color"

/-- One pixel of the indexed-colour expansion loop: look the index up in
the palette, clamping an out-of-range index to opaque black, take the
alpha from the alpha table, and composite the triple over white. -/
def expandPixelAt (bit_depth : Nat) (palette : List (Nat × Nat × Nat)) (alphaTab : List Nat)
    (row : List Nat) (x : Nat) : Except String (List Nat) :=
  match get_index_from_row bit_depth row x with
  | .error e => .error e
  | .ok idx =>
    if palette.length ≤ idx then
      .ok [compositeWhite 0 255, compositeWhite 0 255, compositeWhite 0 255]
    else
      let p := palette.getD idx (0, 0, 0)
      let a := alphaTab.getD idx 255
      .ok [compositeWhite p.1 a, compositeWhite p.2.1 a, compositeWhite p.2.2 a]

/-- The inner x loop of the indexed expansion, over the pixel indices of
one row. -/
def expandRowPix (bit_depth : Nat) (palette : List (Nat × Nat × Nat)) (alphaTab : List Nat)
    (row : List Nat) : List Nat → Except String (List Nat)
  | [] => .ok []
  | x :: xs =>
    match expandPixelAt bit_depth palette alphaTab row x with
    | .error e => .error e
    | .ok pix =>
      match expandRowPix bit_depth palette alphaTab row xs with
      | .error e => .error e
      | .ok rest => .ok (pix ++ rest)

/-- The outer y loop of the indexed expansion: each row is the slice
recon[y * row_len : (y + 1) * row_len]. -/
def expandRowsIdx (bit_depth w row_len : Nat) (palette : List (Nat × Nat × Nat))
    (alphaTab : List Nat) (recon : List Nat) : List Nat → Except String (List Nat)
  | [] => .ok []
  | y :: ys =>
    match expandRowPix bit_depth palette alphaTab ((recon.drop (y * row_len)).take row_len)
        (List.range w) with
    | .error e => .error e
    | .ok rowOut =>
      match expandRowsIdx bit_depth w row_len palette alphaTab recon ys with
      | .error e => .error e
      | .ok rest => .ok (rowOut ++ rest)

/-- The indexed-colour branch of flatten_png_alpha_to_white (lines 241 to
293): the palette chunk must be present with length a multiple of 3; the
palette is its byte triples; the alpha table starts fully opaque and is
overwritten by the transparency table entries up to the shorter length;
then every pixel is expanded and composited. -/
def expandIndexed (bit_depth w ht row_len : Nat) (plteO trnsO : Option (List Nat))
    (recon : List Nat) : Except String (List Nat) :=
  match plteO with
  | none => .error "PLTE chunk missing for indexed-color PNG"
  | some plte =>
    if plte.length % 3 ≠ 0 then .error "PLTE chunk length is not a multiple of 3"
    else
      let num := plte.length / 3
      let palette := (List.range num).map fun i =>
        (plte.getD (3 * i) 0, plte.getD (3 * i + 1) 0, plte.getD (3 * i + 2) 0)
      let alphaTab := (List.range num).map fun i =>
        match trnsO with
        | some trns => if i < trns.length then trns.getD i 255 else 255
        | none => 255
      expandRowsIdx bit_depth w row_len palette alphaTab recon (List.range ht)

/-- The parsed IHDR fields. -/
structure Header where
  width : Nat
  height : Nat
  bit_depth : Nat
  color_type : Nat
  compression : Nat
  filter_method : Nat
  interlace : Nat
deriving DecidableEq

/-- struct.unpack with format ">IIBBBBB" applied to the 13 IHDR payload
bytes. -/
def parseIHDRFields (d : List Nat) : Header :=
  { width := beU32 (d.take 4)
    height := beU32 ((d.drop 4).take 4)
    bit_depth := d.getD 8 0
    color_type := d.getD 9 0
    compression := d.getD 10 0
    filter_method := d.getD 11 0
    interlace := d.getD 12 0 }

/-- Chunk type tags as byte lists. -/
def iHDRty : List Nat := [73, 72, 68, 82]

def iDATty : List Nat := [73, 68, 65, 84]

def pLTEty : List Nat := [80, 76, 84, 69]

def tRNSty : List Nat := [116, 82, 78, 83]

def iENDty : List Nat := [73, 69, 78, 68]

def sRGBty : List Nat := [115, 82, 71, 66]

def gAMAty : List Nat := [103, 65, 77, 65]

def cHRMty : List Nat := [99, 72, 82, 77]

/-- Signature and IHDR validation of flatten_png_alpha_to_white (lines
158 to 177).  An end-of-stream at the IHDR position surfaces the
uncaught EOFError of _read_chunk; every other failure is a format
error.  On success the validated header and the remaining stream are
returned. -/
def parseHeader (s : List Nat) : Except String (Header × List Nat) :=
  if s.take 8 ≠ PNG_SIGNATURE then .error "Not a PNG file"
  else
    match _read_chunk (s.drop 8) with
    | .error e => .error e
    | .ok .eof => .error "EOFError"
    | .ok (.chunk ct d rest) =>
      if ct ≠ iHDRty then .error "First chunk is not IHDR"
      else if d.length ≠ 13 then .error "IHDR chunk has invalid length"
      else
        let h := parseIHDRFields d
        if h.bit_depth ≠ 8 then .error "Only 8-bit PNGs are supported"
        else if h.interlace ≠ 0 then .error "Interlaced PNGs are not supported"
        else if h.compression ≠ 0 ∨ h.filter_method ≠ 0 then
          .error "Unsupported PNG compression or filter method"
        else .ok (h, rest)

/-- State of the chunk-collection loop. -/
structure Collected where
  idat_parts : List (List Nat)
  ancillary : List (List Nat × List Nat)
  plte : Option (List Nat)
  trns : Option (List Nat)
deriving DecidableEq

/-- The chunk-collection loop of flatten_png_alpha_to_white (lines 185
to 200), written with an explicit fuel argument for structural
recursion.  Every loop iteration strictly shortens the stream (a chunk
occupies at least 12 bytes), so a fuel of one more than the stream
length can never run out; the fuel-exhausted branch is unreachable when
called through collectChunks.  EOFError from _read_chunk is caught and
ends the loop, as does an IEND chunk; IDAT payloads accumulate in
order, PLTE and tRNS capture the latest payload, and everything else
joins the ancillary pass-through list in order. -/
def collectChunksGo : Nat → List Nat → Collected → Except String Collected
  | 0, _, _ => .error "fuel exhausted"
  | fuel + 1, s, st =>
    match _read_chunk s with
    | .error e => .error e
    | .ok .eof => .ok st
    | .ok (.chunk ct d rest) =>
      if ct = iDATty then
        collectChunksGo fuel rest { st with idat_parts := st.idat_parts ++ [d] }
      else if ct = pLTEty then
        collectChunksGo fuel rest { st with plte := some d }
      else if ct = tRNSty then
        collectChunksGo fuel rest { st with trns := some d }
      else if ct = iENDty then .ok st
      else
        collectChunksGo fuel rest { st with ancillary := st.ancillary ++ [(ct, d)] }

/-- The chunk-collection loop at its always-sufficient fuel. -/
def collectChunks (s : List Nat) (st : Collected) : Except String Collected :=
  collectChunksGo (s.length + 1) s st

/-- Byte geometry per colour type (lines 212 to 227): bytes per pixel
for filtering and scanline length in bytes, or the unsupported-colour
format error. -/
def layoutFor (h : Header) : Except String (Nat × Nat) :=
  if h.color_type = 6 then .ok (4, h.width * 4)
  else if h.color_type = 2 then .ok (3, h.width * 3)
  else if h.color_type = 3 then
    .ok (max 1 ((h.bit_depth + 7) / 8), (h.width * h.bit_depth + 7) / 8)
  else .error "Unsupported color type"

/-- Colour-model dispatch of the expansion phase (lines 236 to 293). -/
def expandPixels (h : Header) (row_len : Nat) (plteO trnsO : Option (List Nat))
    (recon : List Nat) : Except String (List Nat) :=
  if h.color_type = 6 then _flatten_rgba_over_white recon
  else if h.color_type = 2 then .ok recon
  else expandIndexed h.bit_depth h.width h.height row_len plteO trnsO recon

/-- Re-encoding of the RGB triplet buffer (lines 295 to 304): each row is
prefixed with filter type 0 and copied verbatim. -/
def reencodeRows (w ht : Nat) (rgb : List Nat) : List Nat :=
  ((List.range ht).map fun y => 0 :: ((rgb.drop (y * (w * 3))).take (w * 3))).flatten

/-- Everything flatten_png_alpha_to_white computes before the output
file is opened: the validated width and height, the captured ancillary
chunks, and the compressed re-encoded pixel data. -/
structure Stage1Out where
  width : Nat
  height : Nat
  ancillary : List (List Nat × List Nat)
  compressed : List Nat
deriving DecidableEq

/-- The transformation phase of flatten_png_alpha_to_white (lines 157 to
306): parse and validate the header, collect chunks, require pixel data,
decompress (the external collaborator may fail, surfaced as the
decompression format error), compute the layout, unfilter, expand, and
re-encode and compress.  No output is produced here; this is everything
that runs before the output file is opened. -/
def flattenStage1 (decompress : List Nat → Option (List Nat))
    (compress : List Nat → List Nat) (input : List Nat) : Except String Stage1Out :=
  match parseHeader input with
  | .error e => .error e
  | .ok (hdr, rest) =>
    match collectChunks rest ⟨[], [], none, none⟩ with
    | .error e => .error e
    | .ok col =>
      if col.idat_parts = [] then .error "No IDAT chunks found"
      else
        match decompress col.idat_parts.flatten with
        | none => .error "Failed to decompress IDAT"
        | some decompressed =>
          match layoutFor hdr with
          | .error e => .error e
          | .ok (bpp, scan) =>
            match _unfilter_scanlines decompressed hdr.height scan bpp with
            | .error e => .error e
            | .ok recon =>
              match expandPixels hdr scan col.plte col.trns recon with
              | .error e => .error e
              | .ok rgb =>
                .ok ⟨hdr.width, hdr.height, col.ancillary,
                  compress (reencodeRows hdr.width hdr.height rgb)⟩

/-- The three-element ancillary whitelist of line 326. -/
def whitelisted (t : List Nat) : Bool := t = sRGBty || t = gAMAty || t = cHRMty

/-- The rebuilt IHDR payload (lines 312 to 321): width and height from
the validated input header, bit depth 8, colour type 2, compression,
filter and interlace 0. -/
def packIHDR (w h : Nat) : List Nat := u32be w ++ u32be h ++ [8, 2, 0, 0, 0]

/-- The ordered list of chunks the output phase writes: the rebuilt
IHDR, the whitelisted ancillary chunks in original order, the single
IDAT, and the empty IEND. -/
def outputChunkList (s : Stage1Out) : List (List Nat × List Nat) :=
  [(iHDRty, packIHDR s.width s.height)] ++ (s.ancillary.filter fun p => whitelisted p.1)
    ++ [(iDATty, s.compressed), (iENDty, [])]

/-- Byte image of writing a list of chunks in order with _write_chunk;
none when some struct.pack call fails. -/
def writeChunksBytes (crc32 : List Nat → Nat) : List (List Nat × List Nat) → Option (List Nat)
  | [] => some []
  | (t, d) :: rest =>
    match _write_chunk crc32 t d, writeChunksBytes crc32 rest with
    | some b, some r => some (b ++ r)
    | _, _ => none

/-- The output-writing phase of flatten_png_alpha_to_white (lines 308 to
330): the signature followed by the chunk stream. -/
def flattenStage2 (crc32 : List Nat → Nat) (s : Stage1Out) : Option (List Nat) :=
  match writeChunksBytes crc32 (outputChunkList s) with
  | some b => some (PNG_SIGNATURE ++ b)
  | none => none

/-- The whole operation: the transformation phase followed by the output
phase.  A failing struct.pack in the output phase surfaces as the
non-format error struct.error. -/
def flatten_png_alpha_to_white (crc32 : List Nat → Nat)
    (decompress : List Nat → Option (List Nat)) (compress : List Nat → List Nat)
    (input : List Nat) : Except String (List Nat) :=
  match flattenStage1 decompress compress input with
  | .error e => .error e
  | .ok s =>
    match flattenStage2 crc32 s with
    | some out => .ok out
    | none => .error "struct.error"

/-- Observable file-system actions on the output path. -/
inductive FileOp where
  | openOut : FileOp
  | writeOut (bytes : List Nat) : FileOp
deriving DecidableEq

/-- Write actions of the output phase, chunk by chunk, stopping at the
first failing pack, mirroring the write sequence of lines 310 to 330. -/
def chunkOps (crc32 : List Nat → Nat) : List (List Nat × List Nat) → List FileOp
  | [] => []
  | (t, d) :: rest =>
    match _write_chunk crc32 t d with
    | none => []
    | some b => FileOp.writeOut b :: chunkOps crc32 rest

/-- The trace of output-file actions of a whole run: nothing at all when
the transformation phase fails, otherwise the open of the output file
followed by the signature write and the chunk writes. -/
def flattenOps (crc32 : List Nat → Nat) (decompress : List Nat → Option (List Nat))
    (compress : List Nat → List Nat) (input : List Nat) : List FileOp :=
  match flattenStage1 decompress compress input with
  | .error _ => []
  | .ok s =>
    FileOp.openOut :: FileOp.writeOut PNG_SIGNATURE :: chunkOps crc32 (outputChunkList s)

/-- Modelled from the spec: the per-row scanline filter that the
unfilter reverses (spec section 4.2 read in the encoding direction).
One byte: filtered = (original - predictor) mod 256, in unsigned 8-bit
arithmetic. -/
def filterByteRef (o p : Nat) : Nat := (o + 256 - p % 256) % 256

/-- Modelled from the spec: the reference per-row filter of type t, the
predictors reading the original row (equivalently the reconstructed row,
which filtering maps from) and the previous reconstructed row. -/
def filterRowRef (t bpp : Nat) (prev orig : List Nat) : List Nat :=
  (List.range orig.length).map fun i => filterByteRef (orig.getD i 0) (predAt t bpp prev orig i)

/-- Modelled from the spec: one packed byte of an indexed scanline at
bit depth d, holding 8 / d pixel indices most significant first. -/
def packIdxByte (d : Nat) (pixels : List Nat) (bi : Nat) : Nat :=
  ((List.range (8 / d)).map fun j => pixels.getD (bi * (8 / d) + j) 0 * 2 ^ (8 - d * (j + 1))).sum

/-- Modelled from the spec: a whole packed indexed scanline at bit depth
d, of ceil(pixel count times d / 8) bytes. -/
def packIdxRow (d : Nat) (pixels : List Nat) : List Nat :=
  (List.range ((pixels.length * d + 7) / 8)).map (packIdxByte d pixels)

/-!  Helper lemmas. -/

instance {ε α : Type} [DecidableEq ε] [DecidableEq α] : DecidableEq (Except ε α) :=
  fun a b =>
    match a, b with
    | .ok x, .ok y => if h : x = y then isTrue (by rw [h]) else isFalse (by simp [h])
    | .error x, .error y => if h : x = y then isTrue (by rw [h]) else isFalse (by simp [h])
    | .ok _, .error _ => isFalse (by simp)
    | .error _, .ok _ => isFalse (by simp)

theorem write_chunk_eq_chunkBytes (crc32 : List Nat → Nat) (t d : List Nat)
    (h : d.length < 4294967296) :
    _write_chunk crc32 t d = some (chunkBytes crc32 t d) := by
  simp [_write_chunk, chunkBytes, h]

theorem beU32_u32be (n : Nat) (h : n < 4294967296) : beU32 (u32be n) = n := by
  simp only [beU32, u32be, List.foldl]
  omega

theorem getD_preserve {α : Type} (P : α → Prop) (l : List α) (i : Nat) (d : α)
    (h : ∀ x ∈ l, P x) (hd : P d) : P (l.getD i d) := by
  rcases Nat.lt_or_ge i l.length with hi | hi
  · rw [List.getD_eq_getElem l d hi]
    exact h _ (l.getElem_mem hi)
  · rw [List.getD_eq_default l d hi]
    exact hd

theorem getD_map_range (f : Nat → Nat) (n i : Nat) (h : i < n) :
    ((List.range n).map f).getD i 0 = f i := by
  have hlen : i < ((List.range n).map f).length := by simpa using h
  rw [List.getD_eq_getElem _ _ hlen]
  simp

/-!  Claim C1: the Paeth predictor. -/

/-- Claim C1, counterexample: contrary to the claim, _paeth_predictor 5
10 10 does not return up (10); p = 5 + 10 - 10 = 5 is at distance 0 from
left, which therefore wins the minimisation outright. -/
theorem paeth_5_10_10_returns_left_not_up : _paeth_predictor 5 10 10 ≠ 10 := by decide

/-- Claim C1 (amended): the Paeth predictor selects, among left, up and
upLeft, the candidate minimising the absolute distance to p = left + up -
upLeft, with tie-break order left then up; paeth(10,10,0) returns left
(10), and paeth(5,10,10) returns left (5), since left is at distance 0
from p = 5. -/
theorem paeth_minimizes_with_left_up_tiebreak (a b c : Nat) :
    (_paeth_predictor a b c = a ∨ _paeth_predictor a b c = b ∨ _paeth_predictor a b c = c) ∧
    (((a : Int) + b - c) - (_paeth_predictor a b c : Int)).natAbs
      ≤ (((a : Int) + b - c) - (a : Int)).natAbs ∧
    (((a : Int) + b - c) - (_paeth_predictor a b c : Int)).natAbs
      ≤ (((a : Int) + b - c) - (b : Int)).natAbs ∧
    (((a : Int) + b - c) - (_paeth_predictor a b c : Int)).natAbs
      ≤ (((a : Int) + b - c) - (c : Int)).natAbs ∧
    ((((a : Int) + b - c) - (a : Int)).natAbs ≤ (((a : Int) + b - c) - (b : Int)).natAbs →
      (((a : Int) + b - c) - (a : Int)).natAbs ≤ (((a : Int) + b - c) - (c : Int)).natAbs →
      _paeth_predictor a b c = a) ∧
    ((((a : Int) + b - c) - (b : Int)).natAbs < (((a : Int) + b - c) - (a : Int)).natAbs →
      (((a : Int) + b - c) - (b : Int)).natAbs ≤ (((a : Int) + b - c) - (c : Int)).natAbs →
      _paeth_predictor a b c = b) ∧
    ((((a : Int) + b - c) - (c : Int)).natAbs < (((a : Int) + b - c) - (a : Int)).natAbs →
      (((a : Int) + b - c) - (c : Int)).natAbs < (((a : Int) + b - c) - (b : Int)).natAbs →
      _paeth_predictor a b c = c) ∧
    _paeth_predictor 10 10 0 = 10 ∧ _paeth_predictor 5 10 10 = 5 := by
  refine ⟨?_, ?_, ?_, ?_, ?_, ?_, ?_, by decide, by decide⟩ <;>
    simp only [_paeth_predictor] <;> split_ifs with h1 h2 <;> omega

/-- Claim C1, witness: the amended theorem applied at a = 2, b = 10,
c = 0, where up wins (p = 12, distances 10, 2, 12), with the tie-break
hypotheses of the up clause discharged concretely. -/
theorem paeth_minimizes_witness : _paeth_predictor 2 10 0 = 10 :=
  (paeth_minimizes_with_left_up_tiebreak 2 10 0).2.2.2.2.2.1 (by decide) (by decide)

/-!  Claim C4: the compositing formula. -/

/-- Claim C4: compositing over opaque white computes
(c * a + 255 * (255 - a)) / 255 with integer floor division, yields c at
alpha 255 and 255 at alpha 0, and the RGBA pixel (200,100,50,128)
composites to exactly (227,177,152). -/
theorem composite_over_white_endpoints_and_golden :
    (∀ c a : Nat, compositeWhite c a = (c * a + 255 * (255 - a)) / 255) ∧
    (∀ c : Nat, compositeWhite c 255 = c) ∧
    (∀ c : Nat, compositeWhite c 0 = 255) ∧
    _flatten_rgba_over_white [200, 100, 50, 128] = .ok [227, 177, 152] := by
  refine ⟨fun c a => rfl, fun c => ?_, fun c => ?_, by decide⟩ <;>
    simp only [compositeWhite] <;> omega

/-!  Claim C10: composited bytes stay in range. -/

theorem compositeWhite_le (c a : Nat) (hc : c ≤ 255) (ha : a ≤ 255) :
    compositeWhite c a ≤ 255 := by
  have h1 : c * a ≤ 255 * a := Nat.mul_le_mul_right a hc
  simp only [compositeWhite]
  omega

theorem flattenRGBAgo_lt (l : List Nat) (h : ∀ x ∈ l, x < 256) :
    ∀ x ∈ flattenRGBAgo l, x < 256 := by
  induction l using flattenRGBAgo.induct with
  | case1 r g b a rest ih =>
    intro x hx
    simp only [flattenRGBAgo, List.mem_cons] at hx
    have hr : r < 256 := h r (by simp)
    have hg : g < 256 := h g (by simp)
    have hb : b < 256 := h b (by simp)
    have ha : a < 256 := h a (by simp)
    rcases hx with rfl | rfl | rfl | hx
    · exact Nat.lt_succ_of_le (compositeWhite_le r a (by omega) (by omega))
    · exact Nat.lt_succ_of_le (compositeWhite_le g a (by omega) (by omega))
    · exact Nat.lt_succ_of_le (compositeWhite_le b a (by omega) (by omega))
    · exact ih (fun y hy => h y (by simp [hy])) x hx
  | case2 l h1 =>
    intro x hx
    rw [flattenRGBAgo] at hx
    · simp at hx
    · exact h1

theorem expandPixelAt_lt (bd : Nat) (pal : List (Nat × Nat × Nat)) (alph : List Nat)
    (row : List Nat) (x : Nat) (out : List Nat)
    (hpal : ∀ p ∈ pal, p.1 < 256 ∧ p.2.1 < 256 ∧ p.2.2 < 256)
    (halph : ∀ a ∈ alph, a < 256)
    (h : expandPixelAt bd pal alph row x = .ok out) : ∀ v ∈ out, v < 256 := by
  rcases hg : get_index_from_row bd row x with e | idx
  · have hred : expandPixelAt bd pal alph row x = .error e := by
      simp [expandPixelAt, hg]
    rw [hred] at h
    exact absurd h (by simp)
  · by_cases hidx : pal.length ≤ idx
    · have hred : expandPixelAt bd pal alph row x
          = .ok [compositeWhite 0 255, compositeWhite 0 255, compositeWhite 0 255] := by
        simp [expandPixelAt, hg, hidx]
      rw [hred] at h
      cases h
      intro v hv
      simp only [List.mem_cons] at hv
      rcases hv with rfl | rfl | rfl | hv
      · exact Nat.lt_succ_of_le (compositeWhite_le 0 255 (by omega) (by omega))
      · exact Nat.lt_succ_of_le (compositeWhite_le 0 255 (by omega) (by omega))
      · exact Nat.lt_succ_of_le (compositeWhite_le 0 255 (by omega) (by omega))
      · simp at hv
    · have hred : expandPixelAt bd pal alph row x
          = .ok [compositeWhite (pal.getD idx (0, 0, 0)).1 (alph.getD idx 255),
                 compositeWhite (pal.getD idx (0, 0, 0)).2.1 (alph.getD idx 255),
                 compositeWhite (pal.getD idx (0, 0, 0)).2.2 (alph.getD idx 255)] := by
        simp [expandPixelAt, hg, hidx]
      rw [hred] at h
      cases h
      have hp : (pal.getD idx (0, 0, 0)).1 < 256 ∧ (pal.getD idx (0, 0, 0)).2.1 < 256 ∧
          (pal.getD idx (0, 0, 0)).2.2 < 256 :=
        getD_preserve (fun p => p.1 < 256 ∧ p.2.1 < 256 ∧ p.2.2 < 256) pal idx (0, 0, 0)
          hpal (by refine ⟨?_, ?_, ?_⟩ <;> decide)
      have ha : alph.getD idx 255 < 256 :=
        getD_preserve (fun a => a < 256) alph idx 255 halph (by omega)
      intro v hv
      simp only [List.mem_cons] at hv
      rcases hv with rfl | rfl | rfl | hv
      · exact Nat.lt_succ_of_le (compositeWhite_le _ _ (by omega) (by omega))
      · exact Nat.lt_succ_of_le (compositeWhite_le _ _ (by omega) (by omega))
      · exact Nat.lt_succ_of_le (compositeWhite_le _ _ (by omega) (by omega))
      · simp at hv

theorem expandRowPix_lt (bd : Nat) (pal : List (Nat × Nat × Nat)) (alph : List Nat)
    (row : List Nat) (xs : List Nat) (out : List Nat)
    (hpal : ∀ p ∈ pal, p.1 < 256 ∧ p.2.1 < 256 ∧ p.2.2 < 256)
    (halph : ∀ a ∈ alph, a < 256)
    (h : expandRowPix bd pal alph row xs = .ok out) : ∀ v ∈ out, v < 256 := by
  induction xs generalizing out with
  | nil => cases h; simp
  | cons x xs ih =>
    simp only [expandRowPix] at h
    rcases h1 : expandPixelAt bd pal alph row x with e | pix <;> rw [h1] at h
    · cases h
    · rcases h2 : expandRowPix bd pal alph row xs with e | rest <;> rw [h2] at h
      · cases h
      · cases h
        intro v hv
        rcases List.mem_append.mp hv with hv | hv
        · exact expandPixelAt_lt bd pal alph row x pix hpal halph h1 v hv
        · exact ih rest h2 v hv

theorem expandRowsIdx_lt (bd w rl : Nat) (pal : List (Nat × Nat × Nat)) (alph : List Nat)
    (recon : List Nat) (ys : List Nat) (out : List Nat)
    (hpal : ∀ p ∈ pal, p.1 < 256 ∧ p.2.1 < 256 ∧ p.2.2 < 256)
    (halph : ∀ a ∈ alph, a < 256)
    (h : expandRowsIdx bd w rl pal alph recon ys = .ok out) : ∀ v ∈ out, v < 256 := by
  induction ys generalizing out with
  | nil => cases h; simp
  | cons y ys ih =>
    simp only [expandRowsIdx] at h
    rcases h1 : expandRowPix bd pal alph ((recon.drop (y * rl)).take rl) (List.range w)
        with e | rowOut <;> rw [h1] at h
    · cases h
    · rcases h2 : expandRowsIdx bd w rl pal alph recon ys with e | rest <;> rw [h2] at h
      · cases h
      · cases h
        intro v hv
        rcases List.mem_append.mp hv with hv | hv
        · exact expandRowPix_lt bd pal alph _ _ rowOut hpal halph h1 v hv
        · exact ih rest h2 v hv

theorem expandIndexed_lt (bd w ht rl : Nat) (plte : List Nat) (trnsO : Option (List Nat))
    (recon : List Nat) (out : List Nat)
    (hplte : ∀ x ∈ plte, x < 256)
    (htrns : ∀ trns v, trnsO = some trns → v ∈ trns → v < 256)
    (h : expandIndexed bd w ht rl (some plte) trnsO recon = .ok out) : ∀ v ∈ out, v < 256 := by
  by_cases h3 : plte.length % 3 = 0
  case neg =>
    have hred : expandIndexed bd w ht rl (some plte) trnsO recon
        = .error "PLTE chunk length is not a multiple of 3" := by
      simp [expandIndexed, h3]
    rw [hred] at h
    exact absurd h (by simp)
  case pos =>
    have hred : expandIndexed bd w ht rl (some plte) trnsO recon
        = expandRowsIdx bd w rl
            ((List.range (plte.length / 3)).map fun i =>
              (plte.getD (3 * i) 0, plte.getD (3 * i + 1) 0, plte.getD (3 * i + 2) 0))
            ((List.range (plte.length / 3)).map fun i =>
              match trnsO with
              | some trns => if i < trns.length then trns.getD i 255 else 255
              | none => 255)
            recon (List.range ht) := by
      simp [expandIndexed, h3]
    rw [hred] at h
    refine expandRowsIdx_lt bd w rl _ _ recon (List.range ht) out ?_ ?_ h
    · intro p hp
      simp only [List.mem_map, List.mem_range] at hp
      obtain ⟨i, _, rfl⟩ := hp
      refine ⟨?_, ?_, ?_⟩ <;> exact getD_preserve (fun v => v < 256) plte _ 0 hplte (by omega)
    · intro a ha
      simp only [List.mem_map, List.mem_range] at ha
      obtain ⟨i, _, rfl⟩ := ha
      rcases trnsO with _ | trns
      · show (255 : Nat) < 256
        decide
      · show (if i < trns.length then trns.getD i 255 else 255) < 256
        split_ifs with h4
        · exact getD_preserve (fun v => v < 256) trns i 255
            (fun x hx => htrns trns x rfl hx) (by decide)
        · decide

/-- Claim C10: for channel and alpha bytes in range, the composited
value (c * a + 255 * (255 - a)) / 255 lies in 0..255, so every byte the
truecolor-alpha flattener and the indexed-colour expander store is a
valid byte. -/
theorem composited_stores_in_range :
    (∀ c a : Nat, c ≤ 255 → a ≤ 255 → compositeWhite c a ≤ 255) ∧
    (∀ rgba out : List Nat, (∀ x ∈ rgba, x < 256) →
      _flatten_rgba_over_white rgba = .ok out → ∀ v ∈ out, v < 256) ∧
    (∀ (bd w ht rl : Nat) (plte : List Nat) (trnsO : Option (List Nat))
        (recon out : List Nat), (∀ x ∈ plte, x < 256) →
      (∀ trns v, trnsO = some trns → v ∈ trns → v < 256) →
      expandIndexed bd w ht rl (some plte) trnsO recon = .ok out → ∀ v ∈ out, v < 256) := by
  refine ⟨compositeWhite_le, ?_, ?_⟩
  · intro rgba out hb h
    by_cases hc : rgba.length % 4 = 0
    · rw [_flatten_rgba_over_white, if_neg (by omega : ¬ rgba.length % 4 ≠ 0)] at h
      cases h
      exact flattenRGBAgo_lt rgba hb
    · rw [_flatten_rgba_over_white, if_pos hc] at h
      exact absurd h (by simp)
  · exact expandIndexed_lt

/-- Claim C10, witness: the range theorem applied concretely: the
composite of channel 255 with alpha 1 is in range, the flattened bytes
of the single RGBA pixel (255,0,7,1) are bytes, and the expansion of a
one-pixel indexed image over a two-entry palette with a short
transparency table produces bytes. -/
theorem composited_stores_in_range_witness :
    compositeWhite 255 1 ≤ 255 ∧
    (∀ v ∈ [255, 254, 254], v < 256) ∧
    (∀ v ∈ [227, 177, 152], v < 256) :=
  ⟨composited_stores_in_range.1 255 1 (by decide) (by decide),
   composited_stores_in_range.2.1 [255, 0, 7, 1] [255, 254, 254] (by decide) (by decide),
   composited_stores_in_range.2.2 8 1 1 1 [200, 100, 50] (some [128]) [0] [227, 177, 152]
     (by decide) (fun trns v htr hv => by
        cases htr
        simp only [List.mem_singleton] at hv
        omega)
     (by decide)⟩

/-!  Claim C6: decompressed-size handling. -/

/-- Claim C6: a decompressed buffer smaller than
height * (1 + row_length_bytes) makes _unfilter_scanlines raise the
size-mismatch format error, while a larger buffer is truncated to
exactly that size, the unfilter behaving on it exactly as on the
truncated prefix. -/
theorem unfilter_scanlines_size_mismatch (raw : List Nat) (h s b : Nat) :
    (raw.length < h * (1 + s) →
      _unfilter_scanlines raw h s b = .error "Decompressed IDAT size unexpected") ∧
    (h * (1 + s) ≤ raw.length →
      _unfilter_scanlines raw h s b = _unfilter_scanlines (raw.take (h * (1 + s))) h s b) := by
  constructor
  · intro hlt
    simp [_unfilter_scanlines, hlt]
  · intro hge
    have h1 : ¬ raw.length < h * (1 + s) := by omega
    have h2 : ¬ (raw.take (h * (1 + s))).length < h * (1 + s) := by
      simp only [List.length_take]
      omega
    simp only [_unfilter_scanlines, if_neg h1, if_neg h2, List.take_take, Nat.min_self]

/-- Claim C6, witness: with height 1 and scanline length 3 the expected
size is 4; the 2-byte buffer errors, and a 6-byte buffer behaves as its
4-byte prefix. -/
theorem unfilter_scanlines_size_mismatch_witness :
    _unfilter_scanlines [0, 1] 1 3 1 = .error "Decompressed IDAT size unexpected" ∧
    _unfilter_scanlines [0, 1, 2, 3, 9, 9] 1 3 1
      = _unfilter_scanlines ([0, 1, 2, 3, 9, 9].take (1 * (1 + 3))) 1 3 1 :=
  ⟨(unfilter_scanlines_size_mismatch [0, 1] 1 3 1).1 (by decide),
   (unfilter_scanlines_size_mismatch [0, 1, 2, 3, 9, 9] 1 3 1).2 (by decide)⟩

/-!  Claim C7: chunk-read truncation behaviour. -/

/-- Claim C7: _read_chunk returns the end-of-chunks signal exactly on an
empty stream, and raises a format error exactly when the nonempty stream
is too short for the full 4-byte length field, 4-byte type tag, declared
payload and 4-byte checksum; otherwise it returns a whole chunk, never a
partial result. -/
theorem read_chunk_eof_iff_empty_and_error_iff_truncated (s : List Nat) :
    (_read_chunk s = .ok .eof ↔ s = []) ∧
    ((∃ e, _read_chunk s = .error e) ↔
      s ≠ [] ∧ s.length < beU32 (s.take 4) + 12) := by
  simp only [_read_chunk]
  by_cases h0 : (s.take 4).length = 0
  · have hnil : s = [] := by
      rw [List.length_take] at h0
      have : s.length = 0 := by omega
      exact List.length_eq_zero.mp this
    subst hnil
    simp
  · have hne : s ≠ [] := by
      intro hs
      subst hs
      simp at h0
    rw [if_neg h0]
    have hlen4 : (s.take 4).length = min 4 s.length := List.length_take 4 s
    by_cases h4 : (s.take 4).length ≠ 4
    · rw [if_pos h4]
      have hlt : s.length < 4 := by omega
      constructor
      · constructor
        · intro hh
          cases hh
        · intro hh
          exact absurd hh hne
      · constructor
        · intro _
          refine ⟨hne, ?_⟩
          omega
        · intro _
          exact ⟨_, rfl⟩
    · rw [if_neg h4]
      have hs4 : 4 ≤ s.length := by omega
      by_cases hct : ((s.drop 4).take 4).length ≠ 4
      · rw [if_pos hct]
        have : s.length < 8 := by
          rw [List.length_take, List.length_drop] at hct
          omega
        constructor
        · constructor
          · intro hh
            cases hh
          · intro hh
            exact absurd hh hne
        · constructor
          · intro _
            refine ⟨hne, ?_⟩
            omega
          · intro _
            exact ⟨_, rfl⟩
      · rw [if_neg hct]
        have hs8 : 8 ≤ s.length := by
          rw [List.length_take, List.length_drop] at hct
          omega
        by_cases hdata : (((s.drop 4).drop 4).take (beU32 (s.take 4))).length ≠ beU32 (s.take 4)
        · rw [if_pos hdata]
          have : s.length < beU32 (s.take 4) + 8 := by
            rw [List.length_take, List.length_drop, List.length_drop] at hdata
            omega
          constructor
          · constructor
            · intro hh
              cases hh
            · intro hh
              exact absurd hh hne
          · constructor
            · intro _
              refine ⟨hne, ?_⟩
              omega
            · intro _
              exact ⟨_, rfl⟩
        · rw [if_neg hdata]
          have hsdata : beU32 (s.take 4) + 8 ≤ s.length := by
            rw [List.length_take, List.length_drop, List.length_drop] at hdata
            omega
          by_cases hcrc : ((((s.drop 4).drop 4).drop (beU32 (s.take 4))).take 4).length ≠ 4
          · rw [if_pos hcrc]
            have : s.length < beU32 (s.take 4) + 12 := by
              rw [List.length_take, List.length_drop, List.length_drop, List.length_drop] at hcrc
              omega
            constructor
            · constructor
              · intro hh
                cases hh
              · intro hh
                exact absurd hh hne
            · constructor
              · intro _
                exact ⟨hne, this⟩
              · intro _
                exact ⟨_, rfl⟩
          · rw [if_neg hcrc]
            have hall : beU32 (s.take 4) + 12 ≤ s.length := by
              rw [List.length_take, List.length_drop, List.length_drop, List.length_drop] at hcrc
              omega
            constructor
            · constructor
              · intro hh
                cases hh
              · intro hh
                exact absurd hh hne
            · constructor
              · intro hh
                obtain ⟨e, he⟩ := hh
                cases he
              · intro hh
                omega

/-- Claim C7, witness: the characterisation applied concretely: the
empty stream is the end-of-chunks signal, and a 2-byte stream (a partial
length field) is a format error. -/
theorem read_chunk_eof_iff_witness :
    _read_chunk [] = .ok .eof ∧ (∃ e, _read_chunk [7, 7] = .error e) :=
  ⟨(read_chunk_eof_iff_empty_and_error_iff_truncated []).1.mpr rfl,
   (read_chunk_eof_iff_empty_and_error_iff_truncated [7, 7]).2.mpr (by decide)⟩

/-!  Claim C9: the chunk codec round trip. -/

/-- Claim C9: reading a stream holding exactly what _write_chunk wrote
for a 4-byte chunk type returns the same type and payload and consumes
the whole stream, for every crc32 function, since the checksum bytes are
read but never inspected. -/
theorem write_chunk_read_chunk_roundtrip (crc32 : List Nat → Nat) (t d out : List Nat)
    (ht : t.length = 4) (hw : _write_chunk crc32 t d = some out) :
    _read_chunk out = .ok (.chunk t d []) := by
  simp only [_write_chunk] at hw
  split_ifs at hw with hlen
  · cases hw
    have hu : ∀ n : Nat, (u32be n).length = 4 := fun n => rfl
    have e1 : (u32be d.length ++ (t ++ (d ++ u32be (crc32 (t ++ d) % 4294967296)))).take 4
        = u32be d.length := List.take_left' (hu d.length)
    have e2 : (u32be d.length ++ (t ++ (d ++ u32be (crc32 (t ++ d) % 4294967296)))).drop 4
        = t ++ (d ++ u32be (crc32 (t ++ d) % 4294967296)) := List.drop_left' (hu d.length)
    simp only [_read_chunk, List.append_assoc, e1, e2, List.take_left' ht,
      List.drop_left' ht, beU32_u32be d.length hlen, List.take_left, List.drop_left]
    simp [ht, u32be]

/-- Claim C9, witness: the round trip applied to the IHDR tag with a
3-byte payload and the zero crc32 function. -/
theorem write_chunk_read_chunk_roundtrip_witness :
    _read_chunk [0, 0, 0, 3, 73, 72, 68, 82, 1, 2, 3, 0, 0, 0, 0]
      = .ok (.chunk iHDRty [1, 2, 3] []) :=
  write_chunk_read_chunk_roundtrip (fun _ => 0) iHDRty [1, 2, 3]
    [0, 0, 0, 3, 73, 72, 68, 82, 1, 2, 3, 0, 0, 0, 0] (by decide) (by decide)

/-!  Claim C5: unfiltering inverts the reference filter. -/

theorem filterByteRef_add (o p : Nat) (ho : o < 256) : (filterByteRef o p + p) % 256 = o := by
  simp only [filterByteRef]
  omega

theorem predAt_take (t bpp : Nat) (prev orig : List Nat) (k : Nat) (hb : 1 ≤ bpp)
    (hk : k < orig.length) :
    predAt t bpp prev (orig.take k) k = predAt t bpp prev orig k := by
  by_cases hc : bpp ≤ k
  · have hlt : k - bpp < k := by omega
    have hlt2 : k - bpp < (orig.take k).length := by
      rw [List.length_take]
      omega
    have hget : (orig.take k).getD (k - bpp) 0 = orig.getD (k - bpp) 0 := by
      rw [List.getD_eq_getElem _ _ hlt2, List.getD_eq_getElem _ _ (by omega : k - bpp < orig.length)]
      exact List.getElem_take _
    simp only [predAt, hget]
  · simp only [predAt, if_neg hc]

theorem unfilterGo_filterRowRef (t bpp : Nat) (prev orig : List Nat) (hb : 1 ≤ bpp)
    (hbytes : ∀ x ∈ orig, x < 256) :
    ∀ n k, k + n = orig.length →
      unfilterGo t bpp prev (orig.take k)
        ((List.range' k n).map fun i => filterByteRef (orig.getD i 0) (predAt t bpp prev orig i))
        = orig := by
  intro n
  induction n with
  | zero =>
    intro k hk
    have hkl : k = orig.length := by omega
    subst hkl
    simp [unfilterGo, List.take_length]
  | succ n ih =>
    intro k hk
    have hklt : k < orig.length := by omega
    rw [List.range'_succ, List.map_cons]
    simp only [unfilterGo]
    have hlen : (orig.take k).length = k := by
      rw [List.length_take]
      omega
    have ho : orig.getD k 0 < 256 := by
      rw [List.getD_eq_getElem _ _ hklt]
      exact hbytes _ (List.getElem_mem hklt)
    rw [hlen, predAt_take t bpp prev orig k hb hklt, filterByteRef_add _ _ ho]
    have htake : orig.take k ++ [orig.getD k 0] = orig.take (k + 1) := by
      rw [List.getD_eq_getElem _ _ hklt, List.take_succ, List.getElem?_eq_getElem hklt]
      rfl
    rw [htake]
    exact ih (k + 1) (by omega)

/-- Claim C5: for each filter type 1 (Sub), 2 (Up), 3 (Average), 4
(Paeth), for a row of bytes at least one pixel stride long and a
zero-filled initial previous row, applying the reference per-row filter
and then the unfilter of _unfilter_scanlines recovers the original row
byte for byte. -/
theorem unfilter_inverts_filter (t bpp : Nat) (orig : List Nat)
    (ht : t = 1 ∨ t = 2 ∨ t = 3 ∨ t = 4) (hb : 1 ≤ bpp) (hlen : bpp ≤ orig.length)
    (hbytes : ∀ x ∈ orig, x < 256) :
    unfilterRow t bpp (List.replicate orig.length 0)
      (filterRowRef t bpp (List.replicate orig.length 0) orig) = .ok orig := by
  have h1 : ¬ t = 0 := by rcases ht with rfl | rfl | rfl | rfl <;> decide
  have h2 : t ≤ 4 := by rcases ht with rfl | rfl | rfl | rfl <;> decide
  simp only [unfilterRow, if_neg h1, if_pos h2]
  have hmain := unfilterGo_filterRowRef t bpp (List.replicate orig.length 0) orig hb hbytes
    orig.length 0 (by omega)
  simp only [filterRowRef, List.range_eq_range', List.take_zero] at hmain ⊢
  rw [hmain]

/-- Claim C5, witness: the round trip applied to the row [10, 20, 30]
under the Paeth filter with pixel stride 1. -/
theorem unfilter_inverts_filter_witness :
    unfilterRow 4 1 (List.replicate 3 0) (filterRowRef 4 1 (List.replicate 3 0) [10, 20, 30])
      = .ok [10, 20, 30] :=
  unfilter_inverts_filter 4 1 [10, 20, 30] (by decide) (by decide) (by decide) (by decide)

/-!  Claim C3: no output on format errors. -/

/-- Claim C3: whenever the transformation phase (all parsing,
unfiltering, expansion, re-filtering and compression) fails, the run
performs no output-file action at all, and conversely any output action
starts with opening the output file after a fully successful
transformation phase, followed first by the signature write.  In
particular every run that ends in a format error (any error other than
the struct.error of the output packer) leaves no output file. -/
theorem format_error_means_no_output (crc32 : List Nat → Nat)
    (decompress : List Nat → Option (List Nat)) (compress : List Nat → List Nat)
    (input : List Nat) :
    (∀ e, flattenStage1 decompress compress input = .error e →
      flattenOps crc32 decompress compress input = []) ∧
    (∀ e, flatten_png_alpha_to_white crc32 decompress compress input = .error e →
      e ≠ "struct.error" → flattenOps crc32 decompress compress input = []) ∧
    (∀ s, flattenStage1 decompress compress input = .ok s →
      flattenOps crc32 decompress compress input
        = FileOp.openOut :: FileOp.writeOut PNG_SIGNATURE :: chunkOps crc32 (outputChunkList s)) := by
  refine ⟨?_, ?_, ?_⟩
  · intro e he
    simp [flattenOps, he]
  · intro e he hne
    rcases h1 : flattenStage1 decompress compress input with e1 | s1
    · simp [flattenOps, h1]
    · simp only [flatten_png_alpha_to_white, h1] at he
      rcases h2 : flattenStage2 crc32 s1 with _ | o <;> rw [h2] at he
      · cases he
        exact absurd rfl hne
      · cases he
  · intro s hs
    simp [flattenOps, hs]

/-- Claim C3, witness: the empty input fails signature validation and
produces an empty file-action trace; concretely instantiated with the
identity collaborators and the zero crc32. -/
theorem format_error_means_no_output_witness :
    flattenOps (fun _ => 0) (fun l => some l) (fun l => l) [] = [] :=
  (format_error_means_no_output (fun _ => 0) (fun l => some l) (fun l => l) []).1
    "Not a PNG file" (by decide)

/-!  Claim C8: shape of the output byte stream. -/

theorem flattenStage1_inv (decompress : List Nat → Option (List Nat))
    (compress : List Nat → List Nat) (input : List Nat) (s1 : Stage1Out)
    (h : flattenStage1 decompress compress input = .ok s1) :
    ∃ hdr rest col, parseHeader input = .ok (hdr, rest) ∧
      collectChunks rest ⟨[], [], none, none⟩ = .ok col ∧
      s1.width = hdr.width ∧ s1.height = hdr.height ∧ s1.ancillary = col.ancillary := by
  simp only [flattenStage1] at h
  split at h
  all_goals try exact Except.noConfusion h
  split at h
  all_goals try exact Except.noConfusion h
  split_ifs at h with hempty
  all_goals try exact Except.noConfusion h
  split at h
  all_goals try exact Except.noConfusion h
  split at h
  all_goals try exact Except.noConfusion h
  split at h
  all_goals try exact Except.noConfusion h
  split at h
  all_goals try exact Except.noConfusion h
  cases h
  exact ⟨_, _, _, by assumption, by assumption, rfl, rfl, rfl⟩

theorem parseHeader_ok_fields (input : List Nat) (hdr : Header) (rest : List Nat)
    (h : parseHeader input = .ok (hdr, rest)) :
    hdr.bit_depth = 8 ∧ hdr.compression = 0 ∧ hdr.filter_method = 0 ∧ hdr.interlace = 0 := by
  simp only [parseHeader] at h
  split_ifs at h
  all_goals try exact Except.noConfusion h
  split at h
  all_goals try exact Except.noConfusion h
  split_ifs at h with hct hlen13 hbd hint hcomp
  all_goals try exact Except.noConfusion h
  cases h
  refine ⟨by omega, ?_, ?_, by omega⟩ <;> omega

theorem writeChunksBytes_eq (crc32 : List Nat → Nat) :
    ∀ (l : List (List Nat × List Nat)) (b : List Nat), writeChunksBytes crc32 l = some b →
      b = (l.map fun p => chunkBytes crc32 p.1 p.2).flatten := by
  intro l
  induction l with
  | nil =>
    intro b hb
    cases hb
    simp
  | cons p rest ih =>
    intro b hb
    obtain ⟨t, d⟩ := p
    simp only [writeChunksBytes] at hb
    rcases h1 : _write_chunk crc32 t d with _ | bb <;> rw [h1] at hb
    · cases hb
    · rcases h2 : writeChunksBytes crc32 rest with _ | r <;> rw [h2] at hb
      · cases hb
      · cases hb
        simp only [List.map_cons, List.flatten_cons]
        rw [ih r h2]
        simp only [_write_chunk] at h1
        split_ifs at h1 with hl
        cases h1
        rfl

/-- Claim C8: every successful run writes exactly the signature, the
rebuilt header chunk (colour type 2, bit depth 8, width and height from
the validated input header, compression, filter and interlace 0), the
captured ancillary chunks whose tag is in the three-element whitelist in
original order, one compressed pixel-data chunk and the terminator
chunk; all other input chunks are dropped. -/
theorem flatten_output_is_signature_then_whitelisted_chunks
    (crc32 : List Nat → Nat) (decompress : List Nat → Option (List Nat))
    (compress : List Nat → List Nat) (input out : List Nat)
    (h : flatten_png_alpha_to_white crc32 decompress compress input = .ok out) :
    ∃ (hdr : Header) (rest : List Nat) (col : Collected) (s1 : Stage1Out),
      parseHeader input = .ok (hdr, rest) ∧
      collectChunks rest ⟨[], [], none, none⟩ = .ok col ∧
      flattenStage1 decompress compress input = .ok s1 ∧
      s1.width = hdr.width ∧ s1.height = hdr.height ∧ s1.ancillary = col.ancillary ∧
      hdr.bit_depth = 8 ∧ hdr.compression = 0 ∧ hdr.filter_method = 0 ∧ hdr.interlace = 0 ∧
      out = PNG_SIGNATURE ++
        (((iHDRty, packIHDR hdr.width hdr.height)
            :: ((col.ancillary.filter fun p => whitelisted p.1)
              ++ [(iDATty, s1.compressed), (iENDty, ([] : List Nat))])).map
          fun p => chunkBytes crc32 p.1 p.2).flatten := by
  rcases h1 : flattenStage1 decompress compress input with e | s1
  · have hx : flatten_png_alpha_to_white crc32 decompress compress input = .error e := by
      simp [flatten_png_alpha_to_white, h1]
    rw [hx] at h
    exact Except.noConfusion h
  · simp only [flatten_png_alpha_to_white, h1] at h
    rcases h2 : flattenStage2 crc32 s1 with _ | o <;> rw [h2] at h
    · cases h
    · cases h
      obtain ⟨hdr, rest, col, hp, hc, hw, hh, ha⟩ :=
        flattenStage1_inv decompress compress input s1 h1
      obtain ⟨hbd, hcomp, hfil, hint⟩ := parseHeader_ok_fields input hdr rest hp
      simp only [flattenStage2] at h2
      rcases h3 : writeChunksBytes crc32 (outputChunkList s1) with _ | b <;> rw [h3] at h2
      · cases h2
      · cases h2
        refine ⟨hdr, rest, col, s1, hp, hc, rfl, hw, hh, ha, hbd, hcomp, hfil, hint, ?_⟩
        rw [writeChunksBytes_eq crc32 _ b h3]
        simp only [outputChunkList, hw, hh, ha]
        rfl

/-- Claim C8, witness: a concrete 1 by 1 truecolor input run with the
identity collaborators produces exactly the signature, rebuilt IHDR,
IDAT and IEND chunk bytes (it has no ancillary chunks, so the
whitelisted list is empty). -/
theorem flatten_output_witness :
    flatten_png_alpha_to_white (fun _ => 0) (fun l => some l) (fun l => l)
      (PNG_SIGNATURE ++ [0, 0, 0, 13] ++ iHDRty ++ [0, 0, 0, 1, 0, 0, 0, 1, 8, 2, 0, 0, 0]
        ++ [0, 0, 0, 0] ++ [0, 0, 0, 4] ++ iDATty ++ [0, 10, 20, 30] ++ [0, 0, 0, 0]
        ++ [0, 0, 0, 0] ++ iENDty ++ [0, 0, 0, 0])
      = .ok [137, 80, 78, 71, 13, 10, 26, 10,
             0, 0, 0, 13, 73, 72, 68, 82, 0, 0, 0, 1, 0, 0, 0, 1, 8, 2, 0, 0, 0, 0, 0, 0, 0,
             0, 0, 0, 4, 73, 68, 65, 84, 0, 10, 20, 30, 0, 0, 0, 0,
             0, 0, 0, 0, 73, 69, 78, 68, 0, 0, 0, 0] ∧
    (∃ (hdr : Header) (rest : List Nat) (col : Collected) (s1 : Stage1Out),
      parseHeader (PNG_SIGNATURE ++ [0, 0, 0, 13] ++ iHDRty
          ++ [0, 0, 0, 1, 0, 0, 0, 1, 8, 2, 0, 0, 0]
          ++ [0, 0, 0, 0] ++ [0, 0, 0, 4] ++ iDATty ++ [0, 10, 20, 30] ++ [0, 0, 0, 0]
          ++ [0, 0, 0, 0] ++ iENDty ++ [0, 0, 0, 0]) = .ok (hdr, rest) ∧
      collectChunks rest ⟨[], [], none, none⟩ = .ok col ∧
      flattenStage1 (fun l => some l) (fun l => l)
        (PNG_SIGNATURE ++ [0, 0, 0, 13] ++ iHDRty
          ++ [0, 0, 0, 1, 0, 0, 0, 1, 8, 2, 0, 0, 0]
          ++ [0, 0, 0, 0] ++ [0, 0, 0, 4] ++ iDATty ++ [0, 10, 20, 30] ++ [0, 0, 0, 0]
          ++ [0, 0, 0, 0] ++ iENDty ++ [0, 0, 0, 0]) = .ok s1 ∧
      s1.width = hdr.width ∧ s1.height = hdr.height ∧ s1.ancillary = col.ancillary ∧
      hdr.bit_depth = 8 ∧ hdr.compression = 0 ∧ hdr.filter_method = 0 ∧ hdr.interlace = 0 ∧
      [137, 80, 78, 71, 13, 10, 26, 10,
       0, 0, 0, 13, 73, 72, 68, 82, 0, 0, 0, 1, 0, 0, 0, 1, 8, 2, 0, 0, 0, 0, 0, 0, 0,
       0, 0, 0, 4, 73, 68, 65, 84, 0, 10, 20, 30, 0, 0, 0, 0,
       0, 0, 0, 0, 73, 69, 78, 68, 0, 0, 0, 0] = PNG_SIGNATURE ++
        (((iHDRty, packIHDR hdr.width hdr.height)
            :: ((col.ancillary.filter fun p => whitelisted p.1)
              ++ [(iDATty, s1.compressed), (iENDty, ([] : List Nat))])).map
          fun p => chunkBytes (fun _ => 0) p.1 p.2).flatten) :=
  ⟨by decide,
   flatten_output_is_signature_then_whitelisted_chunks (fun _ => 0) (fun l => some l)
     (fun l => l) _ _ (by decide)⟩

/-!  Claim C2: packed-index unpacking. -/

theorem get_index_8 (pixels : List Nat) (x : Nat) (hx : x < pixels.length) :
    get_index_from_row 8 (packIdxRow 8 pixels) x = .ok (pixels.getD x 0) := by
  have hn : (pixels.length * 8 + 7) / 8 = pixels.length := by omega
  simp only [get_index_from_row, if_pos rfl, packIdxRow, hn]
  rw [getD_map_range _ _ _ hx]
  norm_num [packIdxByte, List.range_succ]

theorem get_index_4 (pixels : List Nat) (x : Nat) (hx : x < pixels.length)
    (hb : ∀ p ∈ pixels, p < 16) :
    get_index_from_row 4 (packIdxRow 4 pixels) x = .ok (pixels.getD x 0) := by
  have hn : x / 2 < (pixels.length * 4 + 7) / 8 := by omega
  have hbyte : (packIdxRow 4 pixels).getD (x / 2) 0
      = pixels.getD (x / 2 * 2) 0 * 16 + pixels.getD (x / 2 * 2 + 1) 0 := by
    simp only [packIdxRow]
    rw [getD_map_range _ _ _ hn]
    norm_num [packIdxByte, List.range_succ]
    try omega
  have h0 : pixels.getD (x / 2 * 2) 0 < 16 :=
    getD_preserve (fun v => v < 16) pixels _ 0 hb (by decide)
  have h1 : pixels.getD (x / 2 * 2 + 1) 0 < 16 :=
    getD_preserve (fun v => v < 16) pixels _ 0 hb (by decide)
  have hopen : get_index_from_row 4 (packIdxRow 4 pixels) x
      = .ok (if x % 2 = 0 then (packIdxRow 4 pixels).getD (x / 2) 0 / 16 % 16
             else (packIdxRow 4 pixels).getD (x / 2) 0 % 16) := by
    simp [get_index_from_row]
  rw [hopen, hbyte]
  by_cases hpar : x % 2 = 0
  · rw [if_pos hpar]
    refine congrArg Except.ok ?_
    rw [show pixels.getD x 0 = pixels.getD (x / 2 * 2) 0 from by
      rw [show x / 2 * 2 = x from by omega]]
    omega
  · rw [if_neg hpar]
    refine congrArg Except.ok ?_
    rw [show pixels.getD x 0 = pixels.getD (x / 2 * 2 + 1) 0 from by
      rw [show x / 2 * 2 + 1 = x from by omega]]
    omega

theorem get_index_2 (pixels : List Nat) (x : Nat) (hx : x < pixels.length)
    (hb : ∀ p ∈ pixels, p < 4) :
    get_index_from_row 2 (packIdxRow 2 pixels) x = .ok (pixels.getD x 0) := by
  have hn : x / 4 < (pixels.length * 2 + 7) / 8 := by omega
  have hbyte : (packIdxRow 2 pixels).getD (x / 4) 0
      = pixels.getD (x / 4 * 4) 0 * 64 + pixels.getD (x / 4 * 4 + 1) 0 * 16
        + pixels.getD (x / 4 * 4 + 2) 0 * 4 + pixels.getD (x / 4 * 4 + 3) 0 := by
    simp only [packIdxRow]
    rw [getD_map_range _ _ _ hn]
    norm_num [packIdxByte, List.range_succ]
    try omega
  have h0 : pixels.getD (x / 4 * 4) 0 < 4 :=
    getD_preserve (fun v => v < 4) pixels _ 0 hb (by decide)
  have h1 : pixels.getD (x / 4 * 4 + 1) 0 < 4 :=
    getD_preserve (fun v => v < 4) pixels _ 0 hb (by decide)
  have h2 : pixels.getD (x / 4 * 4 + 2) 0 < 4 :=
    getD_preserve (fun v => v < 4) pixels _ 0 hb (by decide)
  have h3 : pixels.getD (x / 4 * 4 + 3) 0 < 4 :=
    getD_preserve (fun v => v < 4) pixels _ 0 hb (by decide)
  have hopen : get_index_from_row 2 (packIdxRow 2 pixels) x
      = .ok ((packIdxRow 2 pixels).getD (x / 4) 0 / 2 ^ (6 - 2 * (x % 4)) % 4) := by
    simp [get_index_from_row]
  rw [hopen, hbyte]
  refine congrArg Except.ok ?_
  have hk : x % 4 = 0 ∨ x % 4 = 1 ∨ x % 4 = 2 ∨ x % 4 = 3 := by omega
  rcases hk with hk | hk | hk | hk <;> rw [hk]
  · rw [show (2:Nat) ^ (6 - 2 * 0) = 64 from by norm_num,
      show pixels.getD x 0 = pixels.getD (x / 4 * 4) 0 from by
        rw [show x / 4 * 4 = x from by omega]]
    omega
  · rw [show (2:Nat) ^ (6 - 2 * 1) = 16 from by norm_num,
      show pixels.getD x 0 = pixels.getD (x / 4 * 4 + 1) 0 from by
        rw [show x / 4 * 4 + 1 = x from by omega]]
    omega
  · rw [show (2:Nat) ^ (6 - 2 * 2) = 4 from by norm_num,
      show pixels.getD x 0 = pixels.getD (x / 4 * 4 + 2) 0 from by
        rw [show x / 4 * 4 + 2 = x from by omega]]
    omega
  · rw [show (2:Nat) ^ (6 - 2 * 3) = 1 from by norm_num,
      show pixels.getD x 0 = pixels.getD (x / 4 * 4 + 3) 0 from by
        rw [show x / 4 * 4 + 3 = x from by omega]]
    omega

theorem get_index_1 (pixels : List Nat) (x : Nat) (hx : x < pixels.length)
    (hb : ∀ p ∈ pixels, p < 2) :
    get_index_from_row 1 (packIdxRow 1 pixels) x = .ok (pixels.getD x 0) := by
  have hn : x / 8 < (pixels.length * 1 + 7) / 8 := by omega
  have hbyte : (packIdxRow 1 pixels).getD (x / 8) 0
      = pixels.getD (x / 8 * 8) 0 * 128 + pixels.getD (x / 8 * 8 + 1) 0 * 64
        + pixels.getD (x / 8 * 8 + 2) 0 * 32 + pixels.getD (x / 8 * 8 + 3) 0 * 16
        + pixels.getD (x / 8 * 8 + 4) 0 * 8 + pixels.getD (x / 8 * 8 + 5) 0 * 4
        + pixels.getD (x / 8 * 8 + 6) 0 * 2 + pixels.getD (x / 8 * 8 + 7) 0 := by
    simp only [packIdxRow]
    rw [getD_map_range _ _ _ hn]
    norm_num [packIdxByte, List.range_succ]
    try omega
  have h0 : pixels.getD (x / 8 * 8) 0 < 2 :=
    getD_preserve (fun v => v < 2) pixels _ 0 hb (by decide)
  have h1 : pixels.getD (x / 8 * 8 + 1) 0 < 2 :=
    getD_preserve (fun v => v < 2) pixels _ 0 hb (by decide)
  have h2 : pixels.getD (x / 8 * 8 + 2) 0 < 2 :=
    getD_preserve (fun v => v < 2) pixels _ 0 hb (by decide)
  have h3 : pixels.getD (x / 8 * 8 + 3) 0 < 2 :=
    getD_preserve (fun v => v < 2) pixels _ 0 hb (by decide)
  have h4 : pixels.getD (x / 8 * 8 + 4) 0 < 2 :=
    getD_preserve (fun v => v < 2) pixels _ 0 hb (by decide)
  have h5 : pixels.getD (x / 8 * 8 + 5) 0 < 2 :=
    getD_preserve (fun v => v < 2) pixels _ 0 hb (by decide)
  have h6 : pixels.getD (x / 8 * 8 + 6) 0 < 2 :=
    getD_preserve (fun v => v < 2) pixels _ 0 hb (by decide)
  have h7 : pixels.getD (x / 8 * 8 + 7) 0 < 2 :=
    getD_preserve (fun v => v < 2) pixels _ 0 hb (by decide)
  have hopen : get_index_from_row 1 (packIdxRow 1 pixels) x
      = .ok ((packIdxRow 1 pixels).getD (x / 8) 0 / 2 ^ (7 - x % 8) % 2) := by
    simp [get_index_from_row]
  rw [hopen, hbyte]
  refine congrArg Except.ok ?_
  have hk : x % 8 = 0 ∨ x % 8 = 1 ∨ x % 8 = 2 ∨ x % 8 = 3 ∨ x % 8 = 4 ∨ x % 8 = 5
      ∨ x % 8 = 6 ∨ x % 8 = 7 := by omega
  rcases hk with hk | hk | hk | hk | hk | hk | hk | hk <;> rw [hk]
  · rw [show (2:Nat) ^ (7 - 0) = 128 from by norm_num,
      show pixels.getD x 0 = pixels.getD (x / 8 * 8) 0 from by
        rw [show x / 8 * 8 = x from by omega]]
    omega
  · rw [show (2:Nat) ^ (7 - 1) = 64 from by norm_num,
      show pixels.getD x 0 = pixels.getD (x / 8 * 8 + 1) 0 from by
        rw [show x / 8 * 8 + 1 = x from by omega]]
    omega
  · rw [show (2:Nat) ^ (7 - 2) = 32 from by norm_num,
      show pixels.getD x 0 = pixels.getD (x / 8 * 8 + 2) 0 from by
        rw [show x / 8 * 8 + 2 = x from by omega]]
    omega
  · rw [show (2:Nat) ^ (7 - 3) = 16 from by norm_num,
      show pixels.getD x 0 = pixels.getD (x / 8 * 8 + 3) 0 from by
        rw [show x / 8 * 8 + 3 = x from by omega]]
    omega
  · rw [show (2:Nat) ^ (7 - 4) = 8 from by norm_num,
      show pixels.getD x 0 = pixels.getD (x / 8 * 8 + 4) 0 from by
        rw [show x / 8 * 8 + 4 = x from by omega]]
    omega
  · rw [show (2:Nat) ^ (7 - 5) = 4 from by norm_num,
      show pixels.getD x 0 = pixels.getD (x / 8 * 8 + 5) 0 from by
        rw [show x / 8 * 8 + 5 = x from by omega]]
    omega
  · rw [show (2:Nat) ^ (7 - 6) = 2 from by norm_num,
      show pixels.getD x 0 = pixels.getD (x / 8 * 8 + 6) 0 from by
        rw [show x / 8 * 8 + 6 = x from by omega]]
    omega
  · rw [show (2:Nat) ^ (7 - 7) = 1 from by norm_num,
      show pixels.getD x 0 = pixels.getD (x / 8 * 8 + 7) 0 from by
        rw [show x / 8 * 8 + 7 = x from by omega]]
    omega

/-- A complete 1 by 1 indexed-colour input whose header declares bit
depth 1: signature, IHDR (width 1, height 1, depth 1, colour type 3),
PLTE with two entries, IDAT, IEND. -/
def input1bitIndexed : List Nat :=
  PNG_SIGNATURE ++ [0, 0, 0, 13] ++ iHDRty ++ [0, 0, 0, 1, 0, 0, 0, 1, 1, 3, 0, 0, 0]
    ++ [0, 0, 0, 0]
    ++ [0, 0, 0, 6] ++ pLTEty ++ [255, 255, 255, 0, 0, 0] ++ [0, 0, 0, 0]
    ++ [0, 0, 0, 2] ++ iDATty ++ [0, 128] ++ [0, 0, 0, 0]
    ++ [0, 0, 0, 0] ++ iENDty ++ [0, 0, 0, 0]

/-- Claim C2, counterexample: contrary to the claim, an indexed-colour
input with bit depth 1 is not unpacked and expanded; the header
validation rejects every bit depth other than 8 before any indexed
processing, so the run fails with a format error instead of producing
an output. -/
theorem indexed_bit_depth_1_rejected :
    flatten_png_alpha_to_white (fun _ => 0) (fun l => some l) (fun l => l) input1bitIndexed
      = .error "Only 8-bit PNGs are supported" := by decide

/-- Claim C2 (amended): the helper get_index_from_row unpacks packed
per-pixel indices exactly as described for bit depths 1, 2, 4 and 8
(recovering every pixel of a packed scanline, MSB first), and raises a
format error for any other depth; however the header validation accepts
only bit depth 8, so in a full run indexed inputs of depths 1, 2 and 4
are rejected with a format error before unpacking. -/
theorem get_index_unpacks_packed_depths :
    (∀ (d : Nat) (pixels : List Nat) (x : Nat), (d = 1 ∨ d = 2 ∨ d = 4 ∨ d = 8) →
      (∀ p ∈ pixels, p < 2 ^ d) → x < pixels.length →
      get_index_from_row d (packIdxRow d pixels) x = .ok (pixels.getD x 0)) ∧
    (∀ (d : Nat) (row : List Nat) (x : Nat), ¬(d = 1 ∨ d = 2 ∨ d = 4 ∨ d = 8) →
      get_index_from_row d row x = .error "Unsupported bit depth for indexed color") ∧
    (∀ (input : List Nat) (hdr : Header) (rest : List Nat),
      parseHeader input = .ok (hdr, rest) → hdr.bit_depth = 8) := by
  refine ⟨?_, ?_, ?_⟩
  · intro d pixels x hd hb hx
    rcases hd with rfl | rfl | rfl | rfl
    · exact get_index_1 pixels x hx (by simpa using hb)
    · exact get_index_2 pixels x hx (by simpa using hb)
    · exact get_index_4 pixels x hx (by simpa using hb)
    · exact get_index_8 pixels x hx
  · intro d row x hd
    have h8 : ¬ d = 8 := by omega
    have h4 : ¬ d = 4 := by omega
    have h2 : ¬ d = 2 := by omega
    have h1 : ¬ d = 1 := by omega
    simp only [get_index_from_row, if_neg h8, if_neg h4, if_neg h2, if_neg h1]
  · intro input hdr rest h
    exact (parseHeader_ok_fields input hdr rest h).1

/-- Claim C2, witness: the amended theorem applied concretely: the
third 2-bit pixel of the packed row of [1, 2, 3, 0, 2] is recovered,
and bit depth 16 is a format error. -/
theorem get_index_unpacks_witness :
    get_index_from_row 2 (packIdxRow 2 [1, 2, 3, 0, 2]) 2 = .ok ([1, 2, 3, 0, 2].getD 2 0) ∧
    get_index_from_row 16 [7] 0 = .error "Unsupported bit depth for indexed color" :=
  ⟨get_index_unpacks_packed_depths.1 2 [1, 2, 3, 0, 2] 2 (by decide) (by decide) (by decide),
   get_index_unpacks_packed_depths.2.1 16 [7] 0 (by decide)⟩
